import Mathlib

/-!
Verification development for the data-analytics-infra-cdk repository.

Part 1 embeds the single source file `src/lib/data-analytics-infra-stack.ts`:
the constructor of `DataAnalyticsStack` is a straight-line sequence of
declarative resource declarations, modelled here as a list of `Declaration`
values whose property records mirror the property objects passed to each
construct, line by line.

Part 2 models the generic Declarative Resource Provisioning Engine that the
specification describes (Resource Graph Builder, Topological Planner, Diff
Engine, Execution Driver).  No code for that engine exists in the repository;
every definition in Part 2 is modelled from the words of the specification.
-/

namespace DataAnalyticsInfra

/-- Removal policies used by the stack (cdk.RemovalPolicy). -/
inductive RemovalPolicy where
  | DESTROY
  | RETAIN
  | SNAPSHOT
deriving Repr, DecidableEq

/-- Database credentials as declared in the source
(`rds.Credentials.fromGeneratedSecret` auto-generates a secret for the
named user). -/
inductive Credentials where
  | fromGeneratedSecret (username : String)
  | fromPassword (username : String)
deriving Repr, DecidableEq

/-- A deploy-time attribute reference from one construct to another,
such as `dmsRole.roleArn` or `dataLakeBucket.bucketName`. -/
inductive AttrRef where
  | roleArn (constructId : String)
  | bucketName (constructId : String)
  | cfnRef (constructId : String)
  | clusterName (constructId : String)
  | bucketWebsiteUrl (constructId : String)
deriving Repr, DecidableEq

/-- One piece of an interpolated string value: a literal fragment, an
attribute reference, or the pseudo parameters `this.account` / `this.region`. -/
inductive Tok where
  | lit (s : String)
  | attr (r : AttrRef)
  | account
  | region
deriving Repr, DecidableEq

/-- An interpolated string value, e.g. the template literal
s3 colon-slash-slash dollar-brace dataLakeBucket.bucketName brace. -/
abbrev TokenString := List Tok

/-- Properties of `new ec2.Vpc(this, "AnalyticsVpc", ...)` (source lines 22-25). -/
structure VpcProps where
  maxAzs : Nat
  natGateways : Nat
deriving Repr, DecidableEq

/-- Properties of `new iam.Role(this, "DMSRole", ...)` (source lines 28-37). -/
structure RoleProps where
  assumedBy : String
  managedPolicies : List String
deriving Repr, DecidableEq

/-- Properties of `new s3.Bucket(this, "DataLakeBucket", ...)` (source lines 40-43). -/
structure BucketProps where
  removalPolicy : RemovalPolicy
  autoDeleteObjects : Bool
deriving Repr, DecidableEq

/-- Properties of `new rds.DatabaseInstance(this, "RDSInstance", ...)`
(source lines 46-64). -/
structure DatabaseInstanceProps where
  engine : String
  engineVersion : String
  vpcConstructId : String
  instanceClass : String
  instanceSize : String
  multiAz : Bool
  allocatedStorage : Nat
  maxAllocatedStorage : Nat
  credentials : Credentials
  subnetType : String
  publiclyAccessible : Bool
  removalPolicy : RemovalPolicy
deriving Repr, DecidableEq

/-- Properties of `new redshift.Cluster(this, "RedshiftCluster", ...)`
(source lines 67-77). -/
structure ClusterProps where
  masterUsername : String
  vpcConstructId : String
  nodeType : String
  numberOfNodes : Nat
  defaultDatabaseName : String
  publiclyAccessible : Bool
  removalPolicy : RemovalPolicy
deriving Repr, DecidableEq

/-- Properties of `new glue.CfnDatabase(this, "GlueDatabase", ...)`
(source lines 81-86). -/
structure GlueDatabaseProps where
  catalogId : TokenString
  databaseInputName : String
deriving Repr, DecidableEq

/-- Properties of `new glue.CfnCrawler(this, "GlueCrawler", ...)`
(source lines 89-99). -/
structure GlueCrawlerProps where
  role : AttrRef
  databaseName : AttrRef
  s3TargetPaths : List TokenString
deriving Repr, DecidableEq

/-- Properties of `new lambda.Function(this, "TransformFunction", ...)`
(source lines 102-111). -/
structure FunctionProps where
  runtime : String
  codeInline : String
  handler : String
deriving Repr, DecidableEq

/-- Properties of `new athena.CfnWorkGroup(this, "AthenaWorkgroup", ...)`
(source lines 114-122). -/
structure WorkGroupProps where
  name : String
  state : String
  resultOutputLocation : TokenString
deriving Repr, DecidableEq

/-- Properties of `new quicksight.CfnDashboard(this, "QuickSightDashboard", ...)`
(source lines 125-144). -/
structure DashboardProps where
  awsAccountId : TokenString
  dashboardId : String
  name : String
  sourceTemplateArn : TokenString
  dataSetArn : String
  dataSetPlaceholder : String
deriving Repr, DecidableEq

/-- Properties of `new cloudwatch.Alarm(this, "RedshiftCPUAlarm", ...)`
(source lines 148-158). -/
structure AlarmProps where
  metricNamespace : String
  metricName : String
  dimensionClusterIdentifier : AttrRef
  threshold : Nat
  evaluationPeriods : Nat
deriving Repr, DecidableEq

/-- Properties of `new cloudtrail.Trail(this, "CloudTrail", ...)`
(source lines 161-163). -/
structure TrailProps where
  bucketConstructId : String
deriving Repr, DecidableEq

/-- Properties of `new cdk.CfnOutput(this, "S3BucketURL", ...)`
(source lines 166-169). -/
structure OutputProps where
  value : TokenString
  description : String
deriving Repr, DecidableEq

/-- One declarative resource declaration made by the stack constructor. -/
inductive Declaration where
  | vpc (constructId : String) (props : VpcProps)
  | iamRole (constructId : String) (props : RoleProps)
  | s3Bucket (constructId : String) (props : BucketProps)
  | rdsDatabaseInstance (constructId : String) (props : DatabaseInstanceProps)
  | redshiftCluster (constructId : String) (props : ClusterProps)
  | glueDatabase (constructId : String) (props : GlueDatabaseProps)
  | glueCrawler (constructId : String) (props : GlueCrawlerProps)
  | lambdaFunction (constructId : String) (props : FunctionProps)
  | athenaWorkGroup (constructId : String) (props : WorkGroupProps)
  | quickSightDashboard (constructId : String) (props : DashboardProps)
  | cloudWatchAlarm (constructId : String) (props : AlarmProps)
  | cloudTrailTrail (constructId : String) (props : TrailProps)
  | cfnOutput (constructId : String) (props : OutputProps)
deriving Repr, DecidableEq

/-- The resource kind of a declaration (its construct class). -/
inductive Kind where
  | vpc
  | iamRole
  | s3Bucket
  | rdsDatabaseInstance
  | redshiftCluster
  | glueDatabase
  | glueCrawler
  | lambdaFunction
  | athenaWorkGroup
  | quickSightDashboard
  | cloudWatchAlarm
  | cloudTrailTrail
  | cfnOutput
deriving Repr, DecidableEq

/-- Kind of a declaration. -/
def Declaration.kind : Declaration → Kind
  | .vpc _ _ => .vpc
  | .iamRole _ _ => .iamRole
  | .s3Bucket _ _ => .s3Bucket
  | .rdsDatabaseInstance _ _ => .rdsDatabaseInstance
  | .redshiftCluster _ _ => .redshiftCluster
  | .glueDatabase _ _ => .glueDatabase
  | .glueCrawler _ _ => .glueCrawler
  | .lambdaFunction _ _ => .lambdaFunction
  | .athenaWorkGroup _ _ => .athenaWorkGroup
  | .quickSightDashboard _ _ => .quickSightDashboard
  | .cloudWatchAlarm _ _ => .cloudWatchAlarm
  | .cloudTrailTrail _ _ => .cloudTrailTrail
  | .cfnOutput _ _ => .cfnOutput

/-- The removal policy carried by a declaration, when its construct takes one
(only the S3 bucket, the RDS instance and the Redshift cluster do). -/
def Declaration.removalPolicyOf : Declaration → Option RemovalPolicy
  | .s3Bucket _ p => some p.removalPolicy
  | .rdsDatabaseInstance _ p => some p.removalPolicy
  | .redshiftCluster _ p => some p.removalPolicy
  | _ => none

/-- Source lines 22-25. -/
def analyticsVpcProps : VpcProps where
  maxAzs := 2
  natGateways := 1

/-- Source lines 28-37. -/
def dmsRoleProps : RoleProps where
  assumedBy := "dms.amazonaws.com"
  managedPolicies :=
    ["AmazonDMSVPCManagementRole", "AmazonDMSRedshiftS3Role", "AmazonS3FullAccess"]

/-- Source lines 40-43. -/
def dataLakeBucketProps : BucketProps where
  removalPolicy := RemovalPolicy.DESTROY
  autoDeleteObjects := true

/-- Source lines 46-64. -/
def rdsInstanceProps : DatabaseInstanceProps where
  engine := "postgres"
  engineVersion := "VER_13_4"
  vpcConstructId := "AnalyticsVpc"
  instanceClass := "T3"
  instanceSize := "MICRO"
  multiAz := false
  allocatedStorage := 100
  maxAllocatedStorage := 200
  credentials := Credentials.fromGeneratedSecret "admin"
  subnetType := "PUBLIC"
  publiclyAccessible := true
  removalPolicy := RemovalPolicy.DESTROY

/-- Source lines 67-77. -/
def redshiftClusterProps : ClusterProps where
  masterUsername := "admin"
  vpcConstructId := "AnalyticsVpc"
  nodeType := "DC2_LARGE"
  numberOfNodes := 2
  defaultDatabaseName := "analyticsdb"
  publiclyAccessible := true
  removalPolicy := RemovalPolicy.DESTROY

/-- Source lines 81-86. -/
def glueDatabaseProps : GlueDatabaseProps where
  catalogId := [Tok.account]
  databaseInputName := "analytics_database"

/-- Source lines 89-99. -/
def glueCrawlerProps : GlueCrawlerProps where
  role := AttrRef.roleArn "DMSRole"
  databaseName := AttrRef.cfnRef "GlueDatabase"
  s3TargetPaths := [[Tok.lit "s3://", Tok.attr (AttrRef.bucketName "DataLakeBucket")]]

/-- Source lines 102-111. -/
def transformFunctionProps : FunctionProps where
  runtime := "NODEJS_18_X"
  codeInline :=
    "exports.handler = async (event) => \x7b console.log(\x22Data transformation in progress\x22); return event; \x7d"
  handler := "index.handler"

/-- Source lines 114-122. -/
def athenaWorkgroupProps : WorkGroupProps where
  name := "AthenaWorkgroup"
  state := "ENABLED"
  resultOutputLocation :=
    [Tok.lit "s3://", Tok.attr (AttrRef.bucketName "DataLakeBucket"), Tok.lit "/athena-results/"]

/-- Source lines 125-144. -/
def quickSightDashboardProps : DashboardProps where
  awsAccountId := [Tok.account]
  dashboardId := "analytics_dashboard"
  name := "Analytics Dashboard"
  sourceTemplateArn :=
    [Tok.lit "arn:aws:quicksight:", Tok.region, Tok.lit ":", Tok.account,
     Tok.lit ":template/YourTemplateId"]
  dataSetArn := "arn:aws:quicksight:::dataset/YourDataSetId"
  dataSetPlaceholder := "dataset_placeholder"

/-- Source lines 148-158. -/
def redshiftCpuAlarmProps : AlarmProps where
  metricNamespace := "AWS/Redshift"
  metricName := "CPUUtilization"
  dimensionClusterIdentifier := AttrRef.clusterName "RedshiftCluster"
  threshold := 80
  evaluationPeriods := 3

/-- Source lines 161-163. -/
def cloudTrailProps : TrailProps where
  bucketConstructId := "DataLakeBucket"

/-- Source lines 166-169. -/
def s3BucketUrlOutputProps : OutputProps where
  value := [Tok.attr (AttrRef.bucketWebsiteUrl "DataLakeBucket")]
  description := "The S3 bucket URL where data is stored"

/-- The full, ordered list of declarations made by the constructor of
`DataAnalyticsStack` (source lines 17-171). -/
def DataAnalyticsStack.declarations : List Declaration :=
  [Declaration.vpc "AnalyticsVpc" analyticsVpcProps,
   Declaration.iamRole "DMSRole" dmsRoleProps,
   Declaration.s3Bucket "DataLakeBucket" dataLakeBucketProps,
   Declaration.rdsDatabaseInstance "RDSInstance" rdsInstanceProps,
   Declaration.redshiftCluster "RedshiftCluster" redshiftClusterProps,
   Declaration.glueDatabase "GlueDatabase" glueDatabaseProps,
   Declaration.glueCrawler "GlueCrawler" glueCrawlerProps,
   Declaration.lambdaFunction "TransformFunction" transformFunctionProps,
   Declaration.athenaWorkGroup "AthenaWorkgroup" athenaWorkgroupProps,
   Declaration.quickSightDashboard "QuickSightDashboard" quickSightDashboardProps,
   Declaration.cloudWatchAlarm "RedshiftCPUAlarm" redshiftCpuAlarmProps,
   Declaration.cloudTrailTrail "CloudTrail" cloudTrailProps,
   Declaration.cfnOutput "S3BucketURL" s3BucketUrlOutputProps]

/-- The resource kinds named by the topology statement of the specification:
a VPC, an RDS instance, a Redshift cluster, a Glue database and crawler, a
Lambda function, an Athena workgroup, a QuickSight dashboard, a CloudWatch
alarm and a CloudTrail trail. -/
def statedTopologyKinds : List Kind :=
  [Kind.vpc, Kind.rdsDatabaseInstance, Kind.redshiftCluster, Kind.glueDatabase,
   Kind.glueCrawler, Kind.lambdaFunction, Kind.athenaWorkGroup,
   Kind.quickSightDashboard, Kind.cloudWatchAlarm, Kind.cloudTrailTrail]

end DataAnalyticsInfra

namespace ProvisioningEngine

/-- Modelled from the spec: a ResourceSpec of the Declarative Resource
Provisioning Engine (section 3 of the specification; no engine code exists in
the repository): an identifier unique within a deployment unit, a type tag, a
mapping of property name to value, and the set of dependency identifiers. -/
structure ResourceSpec where
  id : String
  rtype : String
  props : List (String × String)
  dependsOn : List String
deriving Repr, DecidableEq

/-- Modelled from the spec: a DeploymentGraph is the set of ResourceSpec nodes
(kept in declaration order) together with the dependency edges derived from
each dependsOn entry. -/
structure DeploymentGraph where
  nodes : List ResourceSpec
deriving Repr, DecidableEq

/-- The declared resource ids, in declaration order. -/
def DeploymentGraph.ids (g : DeploymentGraph) : List String :=
  g.nodes.map (fun r => r.id)

/-- Look up the declared node with the given id. -/
def DeploymentGraph.lookup (g : DeploymentGraph) (i : String) : Option ResourceSpec :=
  g.nodes.find? (fun r => r.id == i)

/-- Modelled from the spec: a DependencyEdge (a, b) means a must exist before
b: some declared node has id b and lists a among its dependencies. -/
def DeploymentGraph.HasEdge (g : DeploymentGraph) (a b : String) : Prop :=
  ∃ r ∈ g.nodes, r.id = b ∧ a ∈ r.dependsOn

instance (g : DeploymentGraph) (a b : String) : Decidable (g.HasEdge a b) := by
  unfold DeploymentGraph.HasEdge
  infer_instance

/-- Modelled from the spec: the DeploymentGraph invariants of section 3 that
do not mention cycles: identifiers are unique within the deployment unit and
every referenced id resolves to a declared node. -/
def DeploymentGraph.WellFormed (g : DeploymentGraph) : Prop :=
  g.ids.Nodup ∧ ∀ r ∈ g.nodes, ∀ d ∈ r.dependsOn, d ∈ g.ids

instance (g : DeploymentGraph) : Decidable g.WellFormed := by
  unfold DeploymentGraph.WellFormed
  infer_instance

/-- Modelled from the spec: the no-cycles invariant of a DeploymentGraph — no
resource depends transitively on itself. -/
def DeploymentGraph.Acyclic (g : DeploymentGraph) : Prop :=
  ∀ i, ¬ Relation.TransGen g.HasEdge i i

/-- Modelled from the spec: the error taxonomy of section 7 that the planner
can raise (the remote errors belong to the Execution Driver, not the
planner). -/
inductive PlanError where
  | referenceError (rid : String) (fieldName : String)
  | cycleError (members : List String)
  | validationError (rid : String)
deriving Repr, DecidableEq

/-- A list of ids that forms a dependency cycle: the list is nonempty, its
adjacent elements are related by HasEdge and its last element has an edge
back to its first. -/
def DeploymentGraph.IsCycleList (g : DeploymentGraph) (l : List String) : Prop :=
  ∃ a rest, l = a :: rest ∧ List.Chain g.HasEdge a (rest ++ [a])

/-- Modelled from the spec: one step of the Topological Planner of section
4.2 — depth-first traversal with a visiting marker (the path of nodes
currently being expanded) and a visited marker (the output order built so
far).  Encountering a node already on the path signals a cycle and fails with
a CycleError listing the member ids of the cycle found; an id that resolves
to no declared node fails with a ReferenceError.  The fuel argument bounds
the recursion depth; it is spent only when descending into the dependencies
of a node, and the planner always supplies more fuel than any acyclic descent
can use.  Dependencies are traversed in their declared order, which makes the
planner deterministic and stable by declaration order. -/
def visitNode (g : DeploymentGraph) : Nat → List String → String → List String →
    Except PlanError (List String)
  | 0, _, i, _ => .error (.validationError i)
  | fuel + 1, path, i, order =>
    if i ∈ order then .ok order
    else if i ∈ path then .error (.cycleError (i :: path.takeWhile (fun p => p ≠ i)))
    else
      match g.lookup i with
      | none => .error (.referenceError i "dependsOn")
      | some r =>
        (r.dependsOn.foldlM (fun o d => visitNode g fuel (i :: path) d o) order).map
          (fun o2 => o2 ++ [i])

/-- Modelled from the spec: the Topological Planner of section 4.2.  Input: a
DeploymentGraph.  Output: an ordered sequence of resource ids such that for
every edge (a, b), a precedes b.  Roots are taken in declaration order. -/
def DeploymentGraph.plan (g : DeploymentGraph) : Except PlanError (List String) :=
  g.ids.foldlM (fun o i => visitNode g (g.nodes.length + 1) [] i o) []

/-- Modelled from the spec: a ChangeAction of section 3. -/
inductive ChangeAction where
  | Create
  | Update
  | Replace
  | Delete
  | Noop
deriving Repr, DecidableEq

/-- Modelled from the spec: a StateSnapshot of section 3 — the last
successfully applied DeploymentGraph plus the remote-assigned identifiers for
each resource. -/
structure StateSnapshot where
  applied : List ResourceSpec
  remoteIds : List (String × String)
deriving Repr, DecidableEq

/-- The empty snapshot (nothing applied yet). -/
def StateSnapshot.empty : StateSnapshot :=
  ⟨[], []⟩

/-- Look up the last-applied resource with the given id. -/
def StateSnapshot.lookup (s : StateSnapshot) (i : String) : Option ResourceSpec :=
  s.applied.find? (fun r => r.id == i)

/-- The normalized value of property k in a property mapping (the first
binding of k, if any). -/
def lookupProp (props : List (String × String)) (k : String) : Option String :=
  (props.find? (fun kv => kv.1 == k)).map (fun kv => kv.2)

/-- All property names appearing in either of two property mappings. -/
def propKeys (p q : List (String × String)) : List String :=
  p.map (fun kv => kv.1) ++ q.map (fun kv => kv.1)

/-- Modelled from the spec: structural equality over normalized property
mappings (section 4.3) — the two mappings bind every property name to the
same value. -/
def propsEqOn (p q : List (String × String)) : Bool :=
  (propKeys p q).all (fun k => lookupProp p k == lookupProp q k)

/-- The property names whose normalized values differ between two property
mappings. -/
def changedKeys (p q : List (String × String)) : List String :=
  (propKeys p q).filter (fun k => !(lookupProp p k == lookupProp q k))

/-- Modelled from the spec: the per-resource rule of the Diff Engine (section
4.3) for a resource present in the new graph.  pol is the resource-type
policy giving the immutable property names of each type tag: present only in
the new graph gives Create; identical normalized properties give Noop; a
changed immutable property gives Replace; otherwise Update. -/
def changeFor (pol : String → List String) (snap : StateSnapshot)
    (r : ResourceSpec) : ChangeAction :=
  match snap.lookup r.id with
  | none => .Create
  | some old =>
    if propsEqOn r.props old.props then .Noop
    else if (changedKeys r.props old.props).any (fun k => k ∈ pol r.rtype) then .Replace
    else .Update

/-- Whether the graph declares the given id. -/
def DeploymentGraph.hasId (g : DeploymentGraph) (i : String) : Bool :=
  g.ids.any (fun j => j == i)

/-- The change action the Diff Engine assigns to a planned id (planned ids
always resolve to a declared node; unresolvable ids never reach this point
because the planner fails with a ReferenceError first). -/
def actOf (pol : String → List String) (g : DeploymentGraph) (snap : StateSnapshot)
    (i : String) : ChangeAction :=
  match g.lookup i with
  | some r => changeFor pol snap r
  | none => .Noop

/-- Modelled from the spec: the Diff Engine of section 4.3 — the mapping from
resource id to ChangeAction: every resource of the new graph is mapped by the
per-resource rule, and every resource present only in the snapshot is mapped
to Delete. -/
def diff (pol : String → List String) (g : DeploymentGraph) (snap : StateSnapshot) :
    List (String × ChangeAction) :=
  g.nodes.map (fun r => (r.id, changeFor pol snap r)) ++
    (snap.applied.filter (fun o => !(g.hasId o.id))).map (fun o => (o.id, ChangeAction.Delete))

/-- Modelled from the spec: the ordered plan (ids with ChangeActions, ordering
rank from the planner): each planned id paired with its change action, with
the Delete actions for snapshot-only resources appended. -/
def makePlan (pol : String → List String) (g : DeploymentGraph) (snap : StateSnapshot) :
    Except PlanError (List (String × ChangeAction)) :=
  (g.plan).map (fun order =>
    order.map (fun i => (i, actOf pol g snap i)) ++
      (snap.applied.filter (fun o => !(g.hasId o.id))).map
        (fun o => (o.id, ChangeAction.Delete)))

/-- A primitive operation of the Execution Driver, one per remote mutation
(Noop expands to a no-op marker that issues no remote call). -/
inductive ExecOp where
  | createOp (rid : String)
  | updateOp (rid : String)
  | deleteOp (rid : String)
  | noopOp (rid : String)
deriving Repr, DecidableEq

/-- The resource id an operation acts on. -/
def ExecOp.opId : ExecOp → String
  | .createOp i => i
  | .updateOp i => i
  | .deleteOp i => i
  | .noopOp i => i

/-- The resource type of an id, taken from the new graph when declared there
and from the snapshot otherwise (only snapshot-only resources, which are
being deleted, miss the graph). -/
def typeOf (g : DeploymentGraph) (snap : StateSnapshot) (i : String) : String :=
  match g.lookup i with
  | some r => r.rtype
  | none =>
    match snap.lookup i with
    | some o => o.rtype
    | none => ""

/-- Modelled from the spec: the internal expansion of one plan entry (section
4.3): Replace expands into Delete-then-Create, or Create-then-Delete when the
resource type supports zero-downtime replacement (the zd policy); every other
action expands into its single operation.  ty gives the resource type of an
id. -/
def expandEntry (zd : String → Bool) (ty : String → String) :
    String × ChangeAction → List ExecOp
  | (i, .Create) => [.createOp i]
  | (i, .Update) => [.updateOp i]
  | (i, .Delete) => [.deleteOp i]
  | (i, .Noop) => [.noopOp i]
  | (i, .Replace) =>
    if zd (ty i) then [.createOp i, .deleteOp i] else [.deleteOp i, .createOp i]

/-- Expansion of a whole ordered plan, entry by entry in plan order. -/
def expandAll (zd : String → Bool) (ty : String → String) :
    List (String × ChangeAction) → List ExecOp
  | [] => []
  | e :: es => expandEntry zd ty e ++ expandAll zd ty es

/-- Modelled from the spec: planning end to end — build the ordered plan and
expand it into the primitive operations the Execution Driver would issue.
Every planning error (ReferenceError, CycleError, ValidationError) surfaces
here, before any operation exists. -/
def expandPlan (zd : String → Bool) (pol : String → List String)
    (g : DeploymentGraph) (snap : StateSnapshot) : Except PlanError (List ExecOp) :=
  (makePlan pol g snap).map (expandAll zd (typeOf g snap))

/-- A remote control-plane invocation (the capability interface of section 6:
create, update, delete). -/
inductive RemoteCall where
  | createCall (rid : String)
  | updateCall (rid : String)
  | deleteCall (rid : String)
deriving Repr, DecidableEq

/-- Modelled from the spec: the effect of one primitive operation on the
snapshot, together with the remote call it issues (a noop issues none). -/
def applyOp (g : DeploymentGraph) (st : StateSnapshot × List RemoteCall)
    (op : ExecOp) : StateSnapshot × List RemoteCall :=
  match op with
  | .createOp i =>
    (⟨st.1.applied ++ (g.lookup i).toList, st.1.remoteIds ++ [(i, "remote-" ++ i)]⟩,
     st.2 ++ [.createCall i])
  | .updateOp i =>
    (⟨st.1.applied.map (fun o => if o.id == i then (g.lookup i).getD o else o),
      st.1.remoteIds⟩,
     st.2 ++ [.updateCall i])
  | .deleteOp i =>
    (⟨st.1.applied.filter (fun o => !(o.id == i)),
      st.1.remoteIds.filter (fun kv => !(kv.1 == i))⟩,
     st.2 ++ [.deleteCall i])
  | .noopOp _ => st

/-- The outcome of an apply invocation: the persisted snapshot, the remote
calls issued, and the planning error when one aborted the run. -/
structure ApplyResult where
  snap : StateSnapshot
  calls : List RemoteCall
  failure : Option PlanError
deriving Repr, DecidableEq

/-- Modelled from the spec: the apply command of section 6 — plan then
execute.  The StateSnapshot is read at plan start; when planning detects an
error the run aborts before any remote mutation, so the snapshot is returned
unchanged and no remote call is issued; otherwise the expanded operations are
executed in order. -/
def applyCmd (zd : String → Bool) (pol : String → List String)
    (g : DeploymentGraph) (snap : StateSnapshot) : ApplyResult :=
  match expandPlan zd pol g snap with
  | .error e => ⟨snap, [], some e⟩
  | .ok ops =>
    let fin := ops.foldl (applyOp g) (snap, [])
    ⟨fin.1, fin.2, none⟩

/-- The correctness invariant of a (partial) planner output: it is
duplicate-free and downward closed under dependency edges — whenever it
contains b, it contains every a with an edge (a, b) at an earlier
position. -/
def OrderInv (g : DeploymentGraph) (order : List String) : Prop :=
  order.Nodup ∧
    ∀ b ∈ order, ∀ a, g.HasEdge a b →
      a ∈ order ∧ order.indexOf a < order.indexOf b

/-- Postcondition of one visitNode call: on success the output extends the
input order, keeps the invariant, adds only declared ids not on the path, and
contains the visited id; the only reachable failure is a CycleError whose
members form a dependency cycle. -/
def VisitConcl (g : DeploymentGraph) (path : List String) (i : String)
    (order : List String) : Except PlanError (List String) → Prop
  | .ok o2 =>
    (∃ t, o2 = order ++ t) ∧ OrderInv g o2 ∧
      (∀ x ∈ o2, x ∈ order ∨ (x ∈ g.ids ∧ x ∉ path)) ∧ i ∈ o2
  | .error (.cycleError mem) => g.IsCycleList mem
  | .error _ => False

/-- Postcondition of folding visitNode over a whole worklist. -/
def FoldConcl (g : DeploymentGraph) (path : List String) (ds : List String)
    (order : List String) : Except PlanError (List String) → Prop
  | .ok o2 =>
    (∃ t, o2 = order ++ t) ∧ OrderInv g o2 ∧
      (∀ x ∈ o2, x ∈ order ∨ (x ∈ g.ids ∧ x ∉ path)) ∧ ∀ d ∈ ds, d ∈ o2
  | .error (.cycleError mem) => g.IsCycleList mem
  | .error _ => False

/-- Postcondition of the whole planner: on success the output is a
duplicate-free, edge-respecting enumeration of exactly the declared ids; the
only reachable failure is a CycleError whose members form a cycle. -/
def PlanConcl (g : DeploymentGraph) : Except PlanError (List String) → Prop
  | .ok o => OrderInv g o ∧ (∀ x ∈ o, x ∈ g.ids) ∧ ∀ x ∈ g.ids, x ∈ o
  | .error (.cycleError mem) => g.IsCycleList mem
  | .error _ => False

/-- Concrete two-node acyclic graph: B depends on A. -/
def twoChainGraph : DeploymentGraph :=
  ⟨[⟨"A", "t", [], []⟩, ⟨"B", "t", [], ["A"]⟩]⟩

/-- Concrete two-node cyclic graph: A and B depend on each other. -/
def twoCycleGraph : DeploymentGraph :=
  ⟨[⟨"A", "t", [], ["B"]⟩, ⟨"B", "t", [], ["A"]⟩]⟩

/-- Concrete one-node graph with one property. -/
def singleNodeGraph : DeploymentGraph :=
  ⟨[⟨"N", "t", [("k", "v")], []⟩]⟩

/-- A snapshot recording singleNodeGraph as last applied. -/
def singleSnap : StateSnapshot :=
  ⟨[⟨"N", "t", [("k", "v")], []⟩], []⟩

/-- Concrete two-node acyclic graph: Q depends on P. -/
def pairGraph : DeploymentGraph :=
  ⟨[⟨"P", "t", [], []⟩, ⟨"Q", "t", [], ["P"]⟩]⟩

/-- Concrete graph for replacement: W depends on D, and D has a size
property. -/
def replaceGraph : DeploymentGraph :=
  ⟨[⟨"D", "db", [("size", "1")], []⟩, ⟨"W", "app", [], ["D"]⟩]⟩

/-- A snapshot in which D was last applied with a different size. -/
def replaceSnap : StateSnapshot :=
  ⟨[⟨"D", "db", [("size", "2")], []⟩], [("D", "remote-D")]⟩

/-- A resource-type policy making size immutable for type db. -/
def sizePolicy : String → List String :=
  fun t => if t == "db" then ["size"] else []

/-- A zero-downtime policy supporting no type. -/
def noZeroDowntime : String → Bool :=
  fun _ => false

/-- A resource-type policy with no immutable properties. -/
def emptyPolicy : String → List String :=
  fun _ => []

/-- Concrete two-node cyclic graph used for the abort example. -/
def cycleGraphForApply : DeploymentGraph :=
  ⟨[⟨"X", "t", [], ["Y"]⟩, ⟨"Y", "t", [], ["X"]⟩]⟩

end ProvisioningEngine

namespace ProvisioningEngine

theorem mem_ids_iff (g : DeploymentGraph) (i : String) :
    i ∈ g.ids ↔ ∃ r ∈ g.nodes, r.id = i := by
  simp [DeploymentGraph.ids]

theorem lookup_eq_some (g : DeploymentGraph) {i : String} {r : ResourceSpec}
    (h : g.lookup i = some r) : r ∈ g.nodes ∧ r.id = i := by
  refine ⟨List.mem_of_find?_eq_some h, ?_⟩
  have := List.find?_some h
  simpa using this

theorem find?_isSome_of_mem {α : Type} {p : α → Bool} :
    ∀ {l : List α} {x : α}, x ∈ l → p x = true → ∃ y, l.find? p = some y
  | a :: l, x, hx, hp => by
    by_cases ha : p a = true
    · exact ⟨a, by simp [List.find?, ha]⟩
    · rcases List.mem_cons.mp hx with rfl | hx2
      · exact absurd hp ha
      · obtain ⟨y, hy⟩ := find?_isSome_of_mem hx2 hp
        exact ⟨y, by simp [List.find?, ha, hy]⟩

theorem lookup_of_mem_ids (g : DeploymentGraph) {i : String} (h : i ∈ g.ids) :
    ∃ r, g.lookup i = some r ∧ r ∈ g.nodes ∧ r.id = i := by
  obtain ⟨r, hr, hid⟩ := (mem_ids_iff g i).mp h
  obtain ⟨y, hy⟩ := find?_isSome_of_mem (p := fun s => s.id == i) hr (by simp [hid])
  obtain ⟨hmem, hyid⟩ := lookup_eq_some g hy
  exact ⟨y, hy, hmem, hyid⟩

theorem node_id_inj (g : DeploymentGraph) (hnd : g.ids.Nodup)
    {r s : ResourceSpec} (hr : r ∈ g.nodes) (hs : s ∈ g.nodes)
    (h : r.id = s.id) : r = s :=
  List.inj_on_of_nodup_map hnd hr hs h

theorem lookup_self (g : DeploymentGraph) (hnd : g.ids.Nodup)
    {r : ResourceSpec} (hr : r ∈ g.nodes) : g.lookup r.id = some r := by
  obtain ⟨y, hy, hymem, hyid⟩ := lookup_of_mem_ids g ((mem_ids_iff g r.id).mpr ⟨r, hr, rfl⟩)
  rwa [node_id_inj g hnd hymem hr hyid] at hy

theorem edge_target_mem_ids (g : DeploymentGraph) {a b : String}
    (h : g.HasEdge a b) : b ∈ g.ids := by
  obtain ⟨r, hr, hid, _⟩ := h
  exact (mem_ids_iff g b).mpr ⟨r, hr, hid⟩

theorem hasEdge_dep (g : DeploymentGraph) (hnd : g.ids.Nodup) {i : String}
    {r : ResourceSpec} (hl : g.lookup i = some r) {a : String}
    (h : g.HasEdge a i) : a ∈ r.dependsOn := by
  obtain ⟨s, hs, hsid, hdep⟩ := h
  obtain ⟨hrmem, hrid⟩ := lookup_eq_some g hl
  rwa [node_id_inj g hnd hs hrmem (hsid.trans hrid.symm)] at hdep

theorem hasId_iff (g : DeploymentGraph) (i : String) :
    g.hasId i = true ↔ i ∈ g.ids := by
  simp [DeploymentGraph.hasId]

theorem chain_takeWhile_close {R : String → String → Prop} :
    ∀ (path : List String) (a i : String), i ∈ path → List.Chain R a path →
      List.Chain R a (path.takeWhile (fun p => p ≠ i) ++ [i])
  | p :: rest, a, i, hmem, hchain => by
    obtain ⟨hap, hrest⟩ := List.chain_cons.mp hchain
    by_cases hpi : p = i
    · subst hpi
      have hT : (p :: rest).takeWhile (fun q => q ≠ p) = [] := by
        simp [List.takeWhile_cons]
      rw [hT]
      exact List.chain_cons.mpr ⟨hap, List.Chain.nil⟩
    · have hmem2 : i ∈ rest := by
        rcases List.mem_cons.mp hmem with h | h
        · exact absurd h.symm hpi
        · exact h
      have hT : (p :: rest).takeWhile (fun q => q ≠ i) =
          p :: rest.takeWhile (fun q => q ≠ i) := by
        simp [List.takeWhile_cons, hpi]
      rw [hT]
      exact List.chain_cons.mpr ⟨hap, chain_takeWhile_close rest p i hmem2 hrest⟩

theorem chain_append_transGen {R : String → String → Prop} :
    ∀ (l : List String) (a b : String), List.Chain R a (l ++ [b]) →
      Relation.TransGen R a b
  | [], a, b, h => Relation.TransGen.single (List.chain_cons.mp h).1
  | c :: l, a, b, h => by
    obtain ⟨hac, hrest⟩ := List.chain_cons.mp h
    exact Relation.TransGen.head hac (chain_append_transGen l c b hrest)

theorem chain_rtg_split {R : String → String → Prop} :
    ∀ (l : List String) (a b x : String), List.Chain R a (l ++ [b]) →
      x ∈ a :: l → Relation.ReflTransGen R a x ∧ Relation.TransGen R x b
  | [], a, b, x, h, hx => by
    have hxa : x = a := by simpa using hx
    subst hxa
    exact ⟨Relation.ReflTransGen.refl, chain_append_transGen [] x b h⟩
  | c :: l, a, b, x, h, hx => by
    obtain ⟨hac, hrest⟩ := List.chain_cons.mp h
    rcases List.mem_cons.mp hx with rfl | hx2
    · exact ⟨Relation.ReflTransGen.refl,
        Relation.TransGen.head hac (chain_append_transGen l c b hrest)⟩
    · obtain ⟨h1, h2⟩ := chain_rtg_split l c b x hrest hx2
      exact ⟨Relation.ReflTransGen.head hac h1, h2⟩

theorem isCycleList_transGen {g : DeploymentGraph} {l : List String}
    (h : g.IsCycleList l) : ∃ a, Relation.TransGen g.HasEdge a a := by
  obtain ⟨a, rest, _, hchain⟩ := h
  exact ⟨a, chain_append_transGen rest a a hchain⟩

theorem isCycleList_mem_transGen {g : DeploymentGraph} {l : List String}
    (h : g.IsCycleList l) : ∀ x ∈ l, Relation.TransGen g.HasEdge x x := by
  obtain ⟨a, rest, rfl, hchain⟩ := h
  intro x hx
  obtain ⟨h1, h2⟩ := chain_rtg_split rest a a x hchain hx
  exact Relation.TransGen.trans_left h2 h1

theorem orderInv_nil (g : DeploymentGraph) : OrderInv g [] :=
  ⟨List.nodup_nil, by intro b hb; simp at hb⟩

theorem orderInv_snoc (g : DeploymentGraph) {o : List String} {i : String}
    (hord : OrderInv g o) (hi : i ∉ o)
    (hdeps : ∀ a, g.HasEdge a i → a ∈ o) : OrderInv g (o ++ [i]) := by
  obtain ⟨hnd, hcl⟩ := hord
  have hidx : (o ++ [i]).indexOf i = o.length := by
    rw [List.indexOf_append_of_not_mem hi]
    simp
  refine ⟨?_, ?_⟩
  · exact List.nodup_append.mpr ⟨hnd, List.nodup_singleton i, by
      intro x hx hx2
      simp only [List.mem_singleton] at hx2
      exact hi (hx2 ▸ hx)⟩
  · intro b hb a hedge
    rcases List.mem_append.mp hb with hb1 | hb2
    · obtain ⟨ha, hlt⟩ := hcl b hb1 a hedge
      refine ⟨List.mem_append_left _ ha, ?_⟩
      rw [List.indexOf_append_of_mem ha, List.indexOf_append_of_mem hb1]
      exact hlt
    · have hbi : b = i := by simpa using hb2
      subst hbi
      have ha := hdeps a hedge
      refine ⟨List.mem_append_left _ ha, ?_⟩
      rw [List.indexOf_append_of_mem ha, hidx]
      exact List.indexOf_lt_length.mpr ha

theorem orderInv_transGen {g : DeploymentGraph} {o : List String}
    (hord : OrderInv g o) {a b : String}
    (h : Relation.TransGen g.HasEdge a b) (hb : b ∈ o) :
    a ∈ o ∧ o.indexOf a < o.indexOf b := by
  induction h with
  | single h1 => exact hord.2 _ hb _ h1
  | tail _ h2 ih =>
    obtain ⟨hc, hlt⟩ := hord.2 _ hb _ h2
    obtain ⟨ha, hlt2⟩ := ih hc
    exact ⟨ha, hlt2.trans hlt⟩

theorem transGen_target_mem_ids {g : DeploymentGraph} {a b : String}
    (h : Relation.TransGen g.HasEdge a b) : b ∈ g.ids := by
  induction h with
  | single h1 => exact edge_target_mem_ids g h1
  | tail _ h2 _ => exact edge_target_mem_ids g h2

theorem acyclic_of_orderInv {g : DeploymentGraph} {o : List String}
    (hord : OrderInv g o) (hcl : ∀ x ∈ g.ids, x ∈ o) : g.Acyclic := by
  intro i hi
  have hio : i ∈ o := hcl i (transGen_target_mem_ids hi)
  obtain ⟨_, hlt⟩ := orderInv_transGen hord hi hio
  exact lt_irrefl _ hlt

theorem nodup_subset_length_le {l1 l2 : List String} (h1 : l1.Nodup)
    (h2 : ∀ x ∈ l1, x ∈ l2) : l1.length ≤ l2.length :=
  (List.subperm_of_subset h1 h2).length_le

theorem foldlM_visit_cons_ok {f : List String → String → Except PlanError (List String)}
    {d : String} {ds : List String} {o o2 : List String}
    (h : f o d = Except.ok o2) :
    (d :: ds).foldlM f o = ds.foldlM f o2 := by
  simp only [List.foldlM, h]
  rfl

theorem foldlM_visit_cons_err {f : List String → String → Except PlanError (List String)}
    {d : String} {ds : List String} {o : List String} {e : PlanError}
    (h : f o d = Except.error e) :
    (d :: ds).foldlM f o = Except.error e := by
  simp only [List.foldlM, h]
  rfl

theorem foldVisit_spec (g : DeploymentGraph) (fuel : Nat)
    (IH : ∀ i path order, path.Nodup → (∀ p ∈ path, p ∈ g.ids) →
      List.Chain g.HasEdge i path → i ∈ g.ids →
      g.nodes.length + 1 ≤ fuel + path.length → OrderInv g order →
      VisitConcl g path i order (visitNode g fuel path i order)) :
    ∀ (ds path order : List String), path.Nodup → (∀ p ∈ path, p ∈ g.ids) →
      (∀ d ∈ ds, List.Chain g.HasEdge d path) → (∀ d ∈ ds, d ∈ g.ids) →
      g.nodes.length + 1 ≤ fuel + path.length → OrderInv g order →
      FoldConcl g path ds order
        (ds.foldlM (fun o d => visitNode g fuel path d o) order) := by
  intro ds path
  induction ds with
  | nil =>
    intro order _ _ _ _ _ hord
    exact ⟨⟨[], by simp⟩, hord, fun x hx => Or.inl hx, by intro d hd; cases hd⟩
  | cons d ds ihds =>
    intro order hpnd hpids hchains hdids hfuel hord
    have hv := IH d path order hpnd hpids (hchains d (by simp)) (hdids d (by simp))
      hfuel hord
    cases hres : visitNode g fuel path d order with
    | error e =>
      rw [hres] at hv
      rw [foldlM_visit_cons_err hres]
      cases e with
      | cycleError mem => exact hv
      | referenceError a b => exact hv.elim
      | validationError a => exact hv.elim
    | ok o2 =>
      rw [hres] at hv
      obtain ⟨⟨t, ht⟩, hord2, hnew2, hd2⟩ := hv
      rw [foldlM_visit_cons_ok hres]
      have hrest := ihds o2 hpnd hpids (fun x hx => hchains x (by simp [hx]))
        (fun x hx => hdids x (by simp [hx])) hfuel hord2
      cases hres2 : ds.foldlM (fun o x => visitNode g fuel path x o) o2 with
      | error e =>
        rw [hres2] at hrest
        cases e with
        | cycleError mem => exact hrest
        | referenceError a b => exact hrest.elim
        | validationError a => exact hrest.elim
      | ok o3 =>
        rw [hres2] at hrest
        obtain ⟨⟨t3, ht3⟩, hord3, hnew3, hall3⟩ := hrest
        refine ⟨⟨t ++ t3, by rw [ht3, ht, List.append_assoc]⟩, hord3, ?_, ?_⟩
        · intro x hx
          rcases hnew3 x hx with h1 | h2
          · exact hnew2 x h1
          · exact Or.inr h2
        · intro x hx
          rcases List.mem_cons.mp hx with rfl | hx2
          · rw [ht3]
            exact List.mem_append_left _ hd2
          · exact hall3 x hx2

theorem visitNode_spec (g : DeploymentGraph) (hWF : g.WellFormed) :
    ∀ (fuel : Nat) (i : String) (path order : List String), path.Nodup →
      (∀ p ∈ path, p ∈ g.ids) → List.Chain g.HasEdge i path → i ∈ g.ids →
      g.nodes.length + 1 ≤ fuel + path.length → OrderInv g order →
      VisitConcl g path i order (visitNode g fuel path i order) := by
  intro fuel
  induction fuel with
  | zero =>
    intro i path order hpnd hpids _ _ hfuel _
    exfalso
    have h1 : path.length ≤ g.ids.length := nodup_subset_length_le hpnd hpids
    have h2 : g.ids.length = g.nodes.length := by simp [DeploymentGraph.ids]
    omega
  | succ fuel ih =>
    intro i path order hpnd hpids hchain hiids hfuel hord
    simp only [visitNode]
    by_cases hio : i ∈ order
    · rw [if_pos hio]
      exact ⟨⟨[], by simp⟩, hord, fun x hx => Or.inl hx, hio⟩
    rw [if_neg hio]
    by_cases hip : i ∈ path
    · rw [if_pos hip]
      show g.IsCycleList (i :: path.takeWhile (fun p => p ≠ i))
      exact ⟨i, path.takeWhile (fun p => p ≠ i), rfl,
        chain_takeWhile_close path i i hip hchain⟩
    rw [if_neg hip]
    cases hl : g.lookup i with
    | none =>
      exfalso
      obtain ⟨r, hr, _, _⟩ := lookup_of_mem_ids g hiids
      rw [hl] at hr
      cases hr
    | some r =>
      have hrmem := (lookup_eq_some g hl).1
      have hrid := (lookup_eq_some g hl).2
      have hfold := foldVisit_spec g fuel ih r.dependsOn (i :: path) order
        (List.nodup_cons.mpr ⟨hip, hpnd⟩)
        (by
          intro p hp
          rcases List.mem_cons.mp hp with rfl | hp2
          · exact hiids
          · exact hpids p hp2)
        (by
          intro d hd
          exact List.chain_cons.mpr ⟨⟨r, hrmem, hrid, hd⟩, hchain⟩)
        (by
          intro d hd
          exact hWF.2 r hrmem d hd)
        (by
          simp only [List.length_cons]
          omega)
        hord
      show VisitConcl g path i order
        (Except.map (fun o2 => o2 ++ [i])
          (r.dependsOn.foldlM (fun o d => visitNode g fuel (i :: path) d o) order))
      cases hfres : r.dependsOn.foldlM (fun o d => visitNode g fuel (i :: path) d o) order with
      | error e =>
        rw [hfres] at hfold
        cases e with
        | cycleError mem => exact hfold
        | referenceError a b => exact hfold.elim
        | validationError a => exact hfold.elim
      | ok o2 =>
        rw [hfres] at hfold
        show VisitConcl g path i order (Except.ok (o2 ++ [i]))
        obtain ⟨⟨t, ht⟩, hord2, hnew2, hall2⟩ := hfold
        have hio2 : i ∉ o2 := by
          intro hmem
          rcases hnew2 i hmem with h1 | h2
          · exact hio h1
          · exact h2.2 (List.mem_cons_self i path)
        refine ⟨⟨t ++ [i], by rw [ht, List.append_assoc]⟩, ?_, ?_, ?_⟩
        · exact orderInv_snoc g hord2 hio2
            (fun a ha => hall2 a (hasEdge_dep g hWF.1 hl ha))
        · intro x hx
          rcases List.mem_append.mp hx with hx1 | hx2
          · rcases hnew2 x hx1 with h1 | h2
            · exact Or.inl h1
            · exact Or.inr ⟨h2.1, fun hc => h2.2 (List.mem_cons_of_mem i hc)⟩
          · have hxi : x = i := by simpa using hx2
            subst hxi
            exact Or.inr ⟨hiids, hip⟩
        · exact List.mem_append_right _ (by simp)

theorem plan_spec (g : DeploymentGraph) (hWF : g.WellFormed) : PlanConcl g g.plan := by
  have hfold := foldVisit_spec g (g.nodes.length + 1) (visitNode_spec g hWF _)
    g.ids [] [] List.nodup_nil (by intro p hp; cases hp) (fun d _ => List.Chain.nil)
    (fun d hd => hd) (by simp) (orderInv_nil g)
  show PlanConcl g (g.ids.foldlM (fun o i => visitNode g (g.nodes.length + 1) [] i o) [])
  cases hres : g.ids.foldlM (fun o i => visitNode g (g.nodes.length + 1) [] i o) [] with
  | error e =>
    rw [hres] at hfold
    cases e with
    | cycleError mem => exact hfold
    | referenceError a b => exact hfold.elim
    | validationError a => exact hfold.elim
  | ok o =>
    rw [hres] at hfold
    obtain ⟨_, hord, hnew, hall⟩ := hfold
    refine ⟨hord, ?_, hall⟩
    intro x hx
    rcases hnew x hx with h | h
    · cases h
    · exact h.1

theorem plan_ok_props (g : DeploymentGraph) (hWF : g.WellFormed) {o : List String}
    (h : g.plan = Except.ok o) :
    OrderInv g o ∧ (∀ x ∈ o, x ∈ g.ids) ∧ ∀ x ∈ g.ids, x ∈ o := by
  have hp := plan_spec g hWF
  rw [h] at hp
  exact hp

theorem plan_err_cycle (g : DeploymentGraph) (hWF : g.WellFormed) {e : PlanError}
    (h : g.plan = Except.error e) :
    ∃ mem, e = PlanError.cycleError mem ∧ g.IsCycleList mem := by
  have hp := plan_spec g hWF
  rw [h] at hp
  cases e with
  | cycleError mem => exact ⟨mem, rfl, hp⟩
  | referenceError a b => exact hp.elim
  | validationError a => exact hp.elim

theorem acyclic_plan_ok (g : DeploymentGraph) (hWF : g.WellFormed) (hac : g.Acyclic) :
    ∃ o, g.plan = Except.ok o ∧ OrderInv g o ∧ (∀ x ∈ o, x ∈ g.ids) ∧
      ∀ x ∈ g.ids, x ∈ o := by
  cases hres : g.plan with
  | ok o =>
    obtain ⟨h1, h2, h3⟩ := plan_ok_props g hWF hres
    exact ⟨o, rfl, h1, h2, h3⟩
  | error e =>
    obtain ⟨mem, rfl, hcl⟩ := plan_err_cycle g hWF hres
    obtain ⟨a, ha⟩ := isCycleList_transGen hcl
    exact absurd ha (hac a)

theorem cyclic_plan_err (g : DeploymentGraph) (hWF : g.WellFormed)
    (hcyc : ∃ i, Relation.TransGen g.HasEdge i i) :
    ∃ mem, g.plan = Except.error (PlanError.cycleError mem) ∧ g.IsCycleList mem := by
  cases hres : g.plan with
  | ok o =>
    obtain ⟨hord, _, hall⟩ := plan_ok_props g hWF hres
    obtain ⟨i, hi⟩ := hcyc
    exact absurd hi (acyclic_of_orderInv hord hall i)
  | error e =>
    obtain ⟨mem, rfl, h⟩ := plan_err_cycle g hWF hres
    exact ⟨mem, rfl, h⟩

theorem visit_no_deps (g : DeploymentGraph) (m : Nat) {d : String}
    {order : List String} {r : ResourceSpec} (hlook : g.lookup d = some r)
    (hdeps : r.dependsOn = []) (hdo : d ∉ order) :
    visitNode g (m + 1) [] d order = Except.ok (order ++ [d]) := by
  simp only [visitNode]
  rw [if_neg hdo, if_neg (List.not_mem_nil d), hlook]
  show (r.dependsOn.foldlM (fun o x => visitNode g m ([d] : List String) x o) order).map
    (fun o2 => o2 ++ [d]) = Except.ok (order ++ [d])
  rw [hdeps]
  rfl

theorem fold_no_deps (g : DeploymentGraph) (m : Nat) :
    ∀ (ds order : List String),
      (∀ d ∈ ds, ∃ r, g.lookup d = some r ∧ r.dependsOn = []) → ds.Nodup →
      (∀ d ∈ ds, d ∉ order) →
      ds.foldlM (fun o i => visitNode g (m + 1) [] i o) order =
        Except.ok (order ++ ds)
  | [], order, _, _, _ => by
    show Except.ok order = Except.ok (order ++ [])
    rw [List.append_nil]
  | d :: ds, order, hlook, hnd, hdis => by
    obtain ⟨r, hr, hrd⟩ := hlook d (by simp)
    rw [foldlM_visit_cons_ok (visit_no_deps g m hr hrd (hdis d (by simp)))]
    rw [fold_no_deps g m ds (order ++ [d]) (fun x hx => hlook x (by simp [hx]))
      (List.nodup_cons.mp hnd).2
      (by
        intro x hx hmem
        rcases List.mem_append.mp hmem with h1 | h2
        · exact hdis x (by simp [hx]) h1
        · have hxd : x = d := by simpa using h2
          exact (List.nodup_cons.mp hnd).1 (hxd ▸ hx))]
    simp

theorem plan_no_deps (g : DeploymentGraph) (hWF : g.WellFormed)
    (h : ∀ r ∈ g.nodes, r.dependsOn = []) : g.plan = Except.ok g.ids := by
  show g.ids.foldlM (fun o i => visitNode g (g.nodes.length + 1) [] i o) [] =
    Except.ok g.ids
  rw [fold_no_deps g g.nodes.length g.ids []
    (by
      intro d hd
      obtain ⟨r, hr, hmem, _⟩ := lookup_of_mem_ids g hd
      exact ⟨r, hr, h r hmem⟩)
    hWF.1 (by intro d _ hc; cases hc)]
  simp

theorem rank_lt_of_transGen (g : DeploymentGraph) (m : String → Nat)
    (hm : ∀ a b, g.HasEdge a b → m a < m b) {a b : String}
    (h : Relation.TransGen g.HasEdge a b) : m a < m b := by
  induction h with
  | single h1 => exact hm _ _ h1
  | tail _ h2 ih => exact ih.trans (hm _ _ h2)

theorem acyclic_of_rank (g : DeploymentGraph) (m : String → Nat)
    (hm : ∀ a b, g.HasEdge a b → m a < m b) : g.Acyclic :=
  fun _ hi => lt_irrefl _ (rank_lt_of_transGen g m hm hi)

theorem lookupProp_eq_none {p : List (String × String)} {k : String}
    (h : k ∉ p.map Prod.fst) : lookupProp p k = none := by
  have hf : p.find? (fun kv => kv.1 == k) = none := by
    rw [List.find?_eq_none]
    intro kv hkv hbeq
    exact h (List.mem_map.mpr ⟨kv, hkv, by simpa using hbeq⟩)
  simp [lookupProp, hf]

theorem mem_propKeys_of_ne {p q : List (String × String)} {k : String}
    (h : lookupProp p k ≠ lookupProp q k) : k ∈ propKeys p q := by
  by_contra hk
  simp only [propKeys, List.mem_append] at hk
  push_neg at hk
  rw [lookupProp_eq_none hk.1, lookupProp_eq_none hk.2] at h
  exact h rfl

theorem propsEqOn_refl (p : List (String × String)) : propsEqOn p p = true := by
  simp only [propsEqOn, List.all_eq_true]
  intro k _
  exact beq_self_eq_true _

theorem propsEqOn_false {p q : List (String × String)} {k : String}
    (h : lookupProp p k ≠ lookupProp q k) : propsEqOn p q = false := by
  rw [Bool.eq_false_iff]
  intro ht
  rw [propsEqOn, List.all_eq_true] at ht
  exact h (eq_of_beq (ht k (mem_propKeys_of_ne h)))

theorem changedKeys_mem {p q : List (String × String)} {k : String}
    (h : lookupProp p k ≠ lookupProp q k) : k ∈ changedKeys p q := by
  rw [changedKeys, List.mem_filter]
  exact ⟨mem_propKeys_of_ne h, by simpa using h⟩

theorem changeFor_replace (pol : String → List String) (snap : StateSnapshot)
    {r old : ResourceSpec} (hold : snap.lookup r.id = some old) {k : String}
    (hk : k ∈ pol r.rtype) (hne : lookupProp r.props k ≠ lookupProp old.props k) :
    changeFor pol snap r = ChangeAction.Replace := by
  have h1 : propsEqOn r.props old.props = false := propsEqOn_false hne
  have h2 : (changedKeys r.props old.props).any (fun k2 => k2 ∈ pol r.rtype) = true := by
    rw [List.any_eq_true]
    exact ⟨k, changedKeys_mem hne, by simpa using hk⟩
  unfold changeFor
  rw [hold]
  show (if propsEqOn r.props old.props = true then ChangeAction.Noop
      else if ((changedKeys r.props old.props).any fun k2 => k2 ∈ pol r.rtype) = true
        then ChangeAction.Replace
      else ChangeAction.Update) = ChangeAction.Replace
  rw [h1, h2]
  simp

theorem twoChainGraph_acyclic : twoChainGraph.Acyclic := by
  apply acyclic_of_rank _ (fun s => if s = "B" then 1 else 0)
  intro a b hedge
  obtain ⟨r, hr, hid, hdep⟩ := hedge
  simp only [twoChainGraph, List.mem_cons, List.not_mem_nil, or_false] at hr
  rcases hr with rfl | rfl
  · cases hdep
  · have ha : a = "A" := by simpa using hdep
    have hb : b = "B" := hid.symm ▸ rfl
    subst ha
    rw [← hid]
    simp

theorem twoCycleGraph_cyclic : ∃ i, Relation.TransGen twoCycleGraph.HasEdge i i :=
  ⟨"A", Relation.TransGen.head (show twoCycleGraph.HasEdge "A" "B" by decide)
    (Relation.TransGen.single (show twoCycleGraph.HasEdge "B" "A" by decide))⟩

theorem pairGraph_acyclic : pairGraph.Acyclic := by
  apply acyclic_of_rank _ (fun s => if s = "Q" then 1 else 0)
  intro a b hedge
  obtain ⟨r, hr, hid, hdep⟩ := hedge
  simp only [pairGraph, List.mem_cons, List.not_mem_nil, or_false] at hr
  rcases hr with rfl | rfl
  · cases hdep
  · have ha : a = "P" := by simpa using hdep
    subst ha
    rw [← hid]
    simp

theorem replaceGraph_acyclic : replaceGraph.Acyclic := by
  apply acyclic_of_rank _ (fun s => if s = "W" then 1 else 0)
  intro a b hedge
  obtain ⟨r, hr, hid, hdep⟩ := hedge
  simp only [replaceGraph, List.mem_cons, List.not_mem_nil, or_false] at hr
  rcases hr with rfl | rfl
  · cases hdep
  · have ha : a = "D" := by simpa using hdep
    subst ha
    rw [← hid]
    simp

theorem changeFor_noop (pol : String → List String) (snap : StateSnapshot)
    {r : ResourceSpec} (h : snap.lookup r.id = some r) :
    changeFor pol snap r = ChangeAction.Noop := by
  unfold changeFor
  rw [h]
  show (if propsEqOn r.props r.props = true then ChangeAction.Noop
      else if ((changedKeys r.props r.props).any fun k2 => k2 ∈ pol r.rtype) = true
        then ChangeAction.Replace
      else ChangeAction.Update) = ChangeAction.Noop
  rw [propsEqOn_refl]
  simp

theorem actOf_empty_create (pol : String → List String) (g : DeploymentGraph)
    {i : String} (h : i ∈ g.ids) :
    actOf pol g StateSnapshot.empty i = ChangeAction.Create := by
  obtain ⟨r, hr, _, _⟩ := lookup_of_mem_ids g h
  unfold actOf
  rw [hr]
  rfl

theorem map_fst_pairs (f : String → ChangeAction) (l : List String) :
    (l.map (fun i => (i, f i))).map Prod.fst = l := by
  induction l with
  | nil => rfl
  | cons x l ih => simp [ih]

theorem expandAll_append (zd : String → Bool) (ty : String → String) :
    ∀ (l1 l2 : List (String × ChangeAction)),
      expandAll zd ty (l1 ++ l2) = expandAll zd ty l1 ++ expandAll zd ty l2
  | [], l2 => by simp [expandAll]
  | e :: l1, l2 => by
    show expandEntry zd ty e ++ expandAll zd ty (l1 ++ l2) =
      (expandEntry zd ty e ++ expandAll zd ty l1) ++ expandAll zd ty l2
    rw [expandAll_append zd ty l1 l2, List.append_assoc]

theorem opId_of_mem_expandEntry (zd : String → Bool) (ty : String → String)
    (i : String) (a : ChangeAction) (op : ExecOp)
    (h : op ∈ expandEntry zd ty (i, a)) : op.opId = i := by
  cases a with
  | Create =>
    have he : op = ExecOp.createOp i := by simpa [expandEntry] using h
    rw [he]
    rfl
  | Update =>
    have he : op = ExecOp.updateOp i := by simpa [expandEntry] using h
    rw [he]
    rfl
  | Delete =>
    have he : op = ExecOp.deleteOp i := by simpa [expandEntry] using h
    rw [he]
    rfl
  | Noop =>
    have he : op = ExecOp.noopOp i := by simpa [expandEntry] using h
    rw [he]
    rfl
  | Replace =>
    by_cases hz : zd (ty i) = true
    · have he : op = ExecOp.createOp i ∨ op = ExecOp.deleteOp i := by
        simpa [expandEntry, hz] using h
      rcases he with rfl | rfl <;> rfl
    · have he : op = ExecOp.deleteOp i ∨ op = ExecOp.createOp i := by
        simpa [expandEntry, hz] using h
      rcases he with rfl | rfl <;> rfl

theorem exists_op_expandEntry (zd : String → Bool) (ty : String → String)
    (i : String) (a : ChangeAction) :
    ∃ op ∈ expandEntry zd ty (i, a), op.opId = i := by
  cases a with
  | Create => exact ⟨ExecOp.createOp i, by simp [expandEntry], rfl⟩
  | Update => exact ⟨ExecOp.updateOp i, by simp [expandEntry], rfl⟩
  | Delete => exact ⟨ExecOp.deleteOp i, by simp [expandEntry], rfl⟩
  | Noop => exact ⟨ExecOp.noopOp i, by simp [expandEntry], rfl⟩
  | Replace =>
    by_cases hz : zd (ty i) = true
    · exact ⟨ExecOp.createOp i, by simp [expandEntry, hz], rfl⟩
    · exact ⟨ExecOp.deleteOp i, by simp [expandEntry, hz], rfl⟩

theorem opId_of_mem_expandAll (zd : String → Bool) (ty : String → String) :
    ∀ (l : List (String × ChangeAction)) (op : ExecOp),
      op ∈ expandAll zd ty l → op.opId ∈ l.map Prod.fst
  | [], op, h => absurd h (by simp [expandAll])
  | e :: es, op, h => by
    have h2 : op ∈ expandEntry zd ty e ++ expandAll zd ty es := h
    rcases List.mem_append.mp h2 with h3 | h3
    · obtain ⟨i, a⟩ := e
      simp [opId_of_mem_expandEntry zd ty i a op h3]
    · simp [opId_of_mem_expandAll zd ty es op h3]

theorem mem_expandAll_of_mem (zd : String → Bool) (ty : String → String) :
    ∀ (l : List (String × ChangeAction)) (e : String × ChangeAction) (op : ExecOp),
      e ∈ l → op ∈ expandEntry zd ty e → op ∈ expandAll zd ty l
  | f :: l, e, op, he, hop => by
    show op ∈ expandEntry zd ty f ++ expandAll zd ty l
    rcases List.mem_cons.mp he with rfl | he2
    · exact List.mem_append_left _ hop
    · exact List.mem_append_right _ (mem_expandAll_of_mem zd ty l e op he2 hop)

theorem split_first_mem {a : String} : ∀ {l : List String}, a ∈ l →
    ∃ l1 l2, l = l1 ++ a :: l2 ∧ a ∉ l1
  | c :: l, h => by
    by_cases hca : c = a
    · subst hca
      exact ⟨[], l, rfl, List.not_mem_nil c⟩
    · have h2 : a ∈ l := by
        rcases List.mem_cons.mp h with h1 | h1
        · exact absurd h1.symm hca
        · exact h1
      obtain ⟨l1, l2, rfl, hnl⟩ := split_first_mem h2
      refine ⟨c :: l1, l2, rfl, ?_⟩
      intro hmem
      rcases List.mem_cons.mp hmem with h1 | h1
      · exact hca h1.symm
      · exact hnl h1

theorem idx_split_left {l1 l2 : List String} {a : String} (ha : a ∉ l1) :
    (l1 ++ a :: l2).indexOf a = l1.length := by
  rw [List.indexOf_append_of_not_mem ha, List.indexOf_cons_self]
  omega

theorem mem_right_of_idx_gt {l1 l2 : List String} {a b : String} (ha : a ∉ l1)
    (hab : b ≠ a) (hlt : (l1 ++ a :: l2).indexOf a < (l1 ++ a :: l2).indexOf b)
    (hb : b ∈ l1 ++ a :: l2) : b ∈ l2 ∧ b ∉ l1 := by
  by_cases hbl1 : b ∈ l1
  · exfalso
    have h1 : (l1 ++ a :: l2).indexOf b = l1.indexOf b :=
      List.indexOf_append_of_mem hbl1
    have h2 : l1.indexOf b < l1.length := List.indexOf_lt_length.mpr hbl1
    rw [h1, idx_split_left ha] at hlt
    omega
  · refine ⟨?_, hbl1⟩
    rcases List.mem_append.mp hb with h1 | h2
    · exact absurd h1 hbl1
    · rcases List.mem_cons.mp h2 with h3 | h3
      · exact absurd h3 hab
      · exact h3

end ProvisioningEngine

open DataAnalyticsInfra

/-- C1: constructing DataAnalyticsStack declares the RDS database instance with
publiclyAccessible set to true and credentials taken from an auto-generated
secret, and declares the Redshift cluster with publiclyAccessible set to
true. -/
theorem C1_stack_declares_public_endpoints_and_generated_secret :
    Declaration.rdsDatabaseInstance "RDSInstance" rdsInstanceProps ∈
      DataAnalyticsStack.declarations ∧
    rdsInstanceProps.publiclyAccessible = true ∧
    rdsInstanceProps.credentials = Credentials.fromGeneratedSecret "admin" ∧
    Declaration.redshiftCluster "RedshiftCluster" redshiftClusterProps ∈
      DataAnalyticsStack.declarations ∧
    redshiftClusterProps.publiclyAccessible = true := by
  refine ⟨by decide, rfl, rfl, by decide, rfl⟩

/-- C2 counterexample: the claim that the stack declares exactly the stated
topology (VPC, RDS, Redshift, Glue database and crawler, Lambda, Athena
workgroup, QuickSight dashboard, CloudWatch alarm, CloudTrail trail) is false:
the constructor also declares resources outside that list, e.g. the S3
data-lake bucket. -/
theorem C2_counterexample_extra_declarations :
    ¬ (∀ d ∈ DataAnalyticsStack.declarations, d.kind ∈ statedTopologyKinds) := by
  decide

/-- C2 amended: constructing DataAnalyticsStack declares each stated topology
kind exactly once, and in addition declares exactly three resources the claim
omits: an IAM role (for DMS ingestion), the S3 data-lake bucket, and a
CloudFormation stack output.  The full, ordered kind list is given
explicitly. -/
theorem C2_stack_topology_amended :
    DataAnalyticsStack.declarations.map Declaration.kind =
      [Kind.vpc, Kind.iamRole, Kind.s3Bucket, Kind.rdsDatabaseInstance,
       Kind.redshiftCluster, Kind.glueDatabase, Kind.glueCrawler,
       Kind.lambdaFunction, Kind.athenaWorkGroup, Kind.quickSightDashboard,
       Kind.cloudWatchAlarm, Kind.cloudTrailTrail, Kind.cfnOutput] ∧
    (∀ k ∈ statedTopologyKinds,
      (DataAnalyticsStack.declarations.map Declaration.kind).count k = 1) := by
  refine ⟨rfl, by decide⟩

/-- C9: every stateful data store declared by DataAnalyticsStack is marked for
destruction on stack removal: every declaration that carries a removal policy
(the S3 data-lake bucket, the RDS instance and the Redshift cluster) carries
RemovalPolicy.DESTROY, and the bucket additionally has autoDeleteObjects
enabled. -/
theorem C9_stateful_stores_destroy_on_removal :
    (∀ d ∈ DataAnalyticsStack.declarations,
      Declaration.removalPolicyOf d = none ∨
      Declaration.removalPolicyOf d = some RemovalPolicy.DESTROY) ∧
    Declaration.s3Bucket "DataLakeBucket" dataLakeBucketProps ∈
      DataAnalyticsStack.declarations ∧
    dataLakeBucketProps.removalPolicy = RemovalPolicy.DESTROY ∧
    dataLakeBucketProps.autoDeleteObjects = true ∧
    Declaration.rdsDatabaseInstance "RDSInstance" rdsInstanceProps ∈
      DataAnalyticsStack.declarations ∧
    rdsInstanceProps.removalPolicy = RemovalPolicy.DESTROY ∧
    Declaration.redshiftCluster "RedshiftCluster" redshiftClusterProps ∈
      DataAnalyticsStack.declarations ∧
    redshiftClusterProps.removalPolicy = RemovalPolicy.DESTROY := by
  refine ⟨by decide, by decide, rfl, rfl, by decide, rfl, by decide, rfl⟩

/-- C10: the Glue crawler declared by DataAnalyticsStack runs under the same
IAM role created for DMS ingestion (its role property is the roleArn of the
DMSRole construct), and that role carries the AmazonS3FullAccess managed
policy. -/
theorem C10_glue_crawler_uses_dms_role_with_full_s3_access :
    Declaration.glueCrawler "GlueCrawler" glueCrawlerProps ∈
      DataAnalyticsStack.declarations ∧
    glueCrawlerProps.role = AttrRef.roleArn "DMSRole" ∧
    Declaration.iamRole "DMSRole" dmsRoleProps ∈ DataAnalyticsStack.declarations ∧
    "AmazonS3FullAccess" ∈ dmsRoleProps.managedPolicies := by
  refine ⟨by decide, rfl, by decide, by decide⟩

open ProvisioningEngine

/-- C3: for every acyclic DeploymentGraph (well-formed per the data-model
invariants: unique ids, resolvable references), the Topological Planner
returns an ordered sequence of exactly the declared resource ids in which,
for every dependency edge (a, b), a precedes b; the planner is a pure
function of the declaration list, so identical input yields an identical
plan, and on a graph with no dependencies at all the output is exactly the
declaration order. -/
theorem C3_planner_orders_every_edge (g : DeploymentGraph)
    (hwf : g.WellFormed) (hac : g.Acyclic) :
    ∃ order, g.plan = Except.ok order ∧
      (∀ i, i ∈ order ↔ i ∈ g.ids) ∧ order.Nodup ∧
      (∀ a b, g.HasEdge a b → a ∈ order ∧ order.indexOf a < order.indexOf b) ∧
      (∀ g2 : DeploymentGraph, g2 = g → g2.plan = Except.ok order) ∧
      ((∀ r ∈ g.nodes, r.dependsOn = []) → order = g.ids) := by
  obtain ⟨o, hplan, hord, hsub, hall⟩ := acyclic_plan_ok g hwf hac
  refine ⟨o, hplan, fun i => ⟨fun h => hsub i h, fun h => hall i h⟩, hord.1, ?_, ?_, ?_⟩
  · intro a b hedge
    exact hord.2 b (hall b (edge_target_mem_ids g hedge)) a hedge
  · intro g2 h2
    rw [h2]
    exact hplan
  · intro hnodeps
    have hid := plan_no_deps g hwf hnodeps
    rw [hplan] at hid
    exact Except.ok.inj hid

/-- C3 witness: the planner theorem applied to the concrete graph in which B
depends on A. -/
theorem C3_planner_orders_every_edge_witness :
    twoChainGraph.WellFormed ∧ twoChainGraph.Acyclic ∧
      (∃ order, twoChainGraph.plan = Except.ok order ∧
        (∀ i, i ∈ order ↔ i ∈ twoChainGraph.ids) ∧ order.Nodup ∧
        (∀ a b, twoChainGraph.HasEdge a b →
          a ∈ order ∧ order.indexOf a < order.indexOf b) ∧
        (∀ g2 : DeploymentGraph, g2 = twoChainGraph →
          g2.plan = Except.ok order) ∧
        ((∀ r ∈ twoChainGraph.nodes, r.dependsOn = []) →
          order = twoChainGraph.ids)) :=
  ⟨by decide, twoChainGraph_acyclic,
    C3_planner_orders_every_edge twoChainGraph (by decide) twoChainGraph_acyclic⟩

/-- C4: every well-formed DeploymentGraph that contains a dependency cycle
makes the Topological Planner fail with a CycleError whose reported member
ids form a dependency cycle (so they include every resource on that cycle),
and every reported member lies on a cycle. -/
theorem C4_planner_cycle_error (g : DeploymentGraph) (hwf : g.WellFormed)
    (hcyc : ∃ i, Relation.TransGen g.HasEdge i i) :
    ∃ members, g.plan = Except.error (PlanError.cycleError members) ∧
      members ≠ [] ∧ g.IsCycleList members ∧
      ∀ x ∈ members, Relation.TransGen g.HasEdge x x := by
  obtain ⟨mem, hplan, hcl⟩ := cyclic_plan_err g hwf hcyc
  refine ⟨mem, hplan, ?_, hcl, isCycleList_mem_transGen hcl⟩
  obtain ⟨a, rest, rfl, _⟩ := hcl
  simp

/-- C4 witness: the cycle theorem applied to the concrete two-node cycle. -/
theorem C4_planner_cycle_error_witness :
    twoCycleGraph.WellFormed ∧
      (∃ i, Relation.TransGen twoCycleGraph.HasEdge i i) ∧
      (∃ members,
        twoCycleGraph.plan = Except.error (PlanError.cycleError members) ∧
        members ≠ [] ∧ twoCycleGraph.IsCycleList members ∧
        ∀ x ∈ members, Relation.TransGen twoCycleGraph.HasEdge x x) :=
  ⟨by decide, twoCycleGraph_cyclic,
    C4_planner_cycle_error twoCycleGraph (by decide) twoCycleGraph_cyclic⟩

/-- C5: diffing a DeploymentGraph (with unique ids, per the data-model
invariant) against a StateSnapshot recording that same graph as last applied
yields Noop for every resource: every entry of the diff is a Noop and every
resource of the graph has its Noop entry. -/
theorem C5_diff_identical_snapshot_noop (pol : String → List String)
    (g : DeploymentGraph) (snap : StateSnapshot) (hnd : g.ids.Nodup)
    (hsnap : snap.applied = g.nodes) :
    (∀ e ∈ diff pol g snap, e.2 = ChangeAction.Noop) ∧
      ∀ r ∈ g.nodes, (r.id, ChangeAction.Noop) ∈ diff pol g snap := by
  have hlk : ∀ r ∈ g.nodes, snap.lookup r.id = some r := by
    intro r hr
    show snap.applied.find? (fun s => s.id == r.id) = some r
    rw [hsnap]
    exact lookup_self g hnd hr
  have hcf : ∀ r ∈ g.nodes, changeFor pol snap r = ChangeAction.Noop :=
    fun r hr => changeFor_noop pol snap (hlk r hr)
  have hdel : snap.applied.filter (fun x => !(g.hasId x.id)) = [] := by
    rw [hsnap, List.filter_eq_nil_iff]
    intro x hx
    have hxid : g.hasId x.id = true :=
      (hasId_iff g x.id).mpr ((mem_ids_iff g x.id).mpr ⟨x, hx, rfl⟩)
    simp [hxid]
  constructor
  · intro e he
    unfold diff at he
    rw [hdel] at he
    simp only [List.map_nil, List.append_nil] at he
    obtain ⟨r, hr, he2⟩ := List.mem_map.mp he
    rw [← he2]
    exact hcf r hr
  · intro r hr
    unfold diff
    exact List.mem_append_left _ (List.mem_map.mpr ⟨r, hr, by rw [hcf r hr]⟩)

/-- C5 witness: the Noop theorem applied to a concrete one-node graph and the
snapshot recording it. -/
theorem C5_diff_identical_snapshot_noop_witness :
    singleNodeGraph.ids.Nodup ∧ singleSnap.applied = singleNodeGraph.nodes ∧
      ((∀ e ∈ diff emptyPolicy singleNodeGraph singleSnap,
          e.2 = ChangeAction.Noop) ∧
        ∀ r ∈ singleNodeGraph.nodes,
          (r.id, ChangeAction.Noop) ∈ diff emptyPolicy singleNodeGraph singleSnap) :=
  ⟨by decide, rfl,
    C5_diff_identical_snapshot_noop emptyPolicy singleNodeGraph singleSnap
      (by decide) rfl⟩

/-- C6: diffing a well-formed acyclic DeploymentGraph with N resources
against an empty StateSnapshot yields an ordered plan assigning Create to all
N resources, covering exactly the declared ids, listed in dependency order
(for every edge (a, b), the entry of a precedes the entry of b). -/
theorem C6_empty_snapshot_all_create (pol : String → List String)
    (g : DeploymentGraph) (hwf : g.WellFormed) (hac : g.Acyclic) :
    ∃ entries, makePlan pol g StateSnapshot.empty = Except.ok entries ∧
      (∀ e ∈ entries, e.2 = ChangeAction.Create) ∧
      entries.length = g.nodes.length ∧
      (∀ i, i ∈ entries.map Prod.fst ↔ i ∈ g.ids) ∧
      ∀ a b, g.HasEdge a b →
        (entries.map Prod.fst).indexOf a < (entries.map Prod.fst).indexOf b := by
  obtain ⟨o, hplan, hord, hsub, hall⟩ := acyclic_plan_ok g hwf hac
  refine ⟨o.map (fun i => (i, actOf pol g StateSnapshot.empty i)), ?_, ?_, ?_, ?_, ?_⟩
  · unfold makePlan
    rw [hplan]
    show Except.ok
      (o.map (fun i => (i, actOf pol g StateSnapshot.empty i)) ++
        (StateSnapshot.empty.applied.filter (fun x => !(g.hasId x.id))).map
          (fun x => (x.id, ChangeAction.Delete))) = _
    rw [show (StateSnapshot.empty.applied.filter (fun x => !(g.hasId x.id))).map
        (fun x => (x.id, ChangeAction.Delete)) = [] from rfl, List.append_nil]
  · intro e he
    obtain ⟨i, hi, he2⟩ := List.mem_map.mp he
    rw [← he2]
    show actOf pol g StateSnapshot.empty i = ChangeAction.Create
    exact actOf_empty_create pol g (hsub i hi)
  · have h1 : o.length ≤ g.ids.length := nodup_subset_length_le hord.1 hsub
    have h2 : g.ids.length ≤ o.length := nodup_subset_length_le hwf.1 hall
    have h3 : g.ids.length = g.nodes.length := by simp [DeploymentGraph.ids]
    rw [List.length_map]
    omega
  · intro i
    rw [map_fst_pairs]
    exact ⟨fun h => hsub i h, fun h => hall i h⟩
  · intro a b hedge
    rw [map_fst_pairs]
    exact (hord.2 b (hall b (edge_target_mem_ids g hedge)) a hedge).2

/-- C6 witness: the all-Create theorem applied to the concrete graph in which
Q depends on P. -/
theorem C6_empty_snapshot_all_create_witness :
    pairGraph.WellFormed ∧ pairGraph.Acyclic ∧
      (∃ entries,
        makePlan emptyPolicy pairGraph StateSnapshot.empty = Except.ok entries ∧
        (∀ e ∈ entries, e.2 = ChangeAction.Create) ∧
        entries.length = pairGraph.nodes.length ∧
        (∀ i, i ∈ entries.map Prod.fst ↔ i ∈ pairGraph.ids) ∧
        ∀ a b, pairGraph.HasEdge a b →
          (entries.map Prod.fst).indexOf a < (entries.map Prod.fst).indexOf b) :=
  ⟨by decide, pairGraph_acyclic,
    C6_empty_snapshot_all_create emptyPolicy pairGraph (by decide) pairGraph_acyclic⟩

/-- C7: for a resource of a well-formed acyclic DeploymentGraph whose
immutable property (per the resource-type policy) changed against the
snapshot, the Diff Engine assigns Replace; in the expanded operation list the
Replace becomes the pair Delete-then-Create (or Create-then-Delete when the
type supports zero-downtime replacement), and for every dependent b of the
replaced resource no operation of b occurs before that pair, while an
operation of b does occur after it. -/
theorem C7_replace_expansion_ordered (zd : String → Bool)
    (pol : String → List String) (g : DeploymentGraph) (snap : StateSnapshot)
    (hwf : g.WellFormed) (hac : g.Acyclic) (r old : ResourceSpec) (k : String)
    (hr : r ∈ g.nodes) (hold : snap.lookup r.id = some old)
    (hk : k ∈ pol r.rtype)
    (hne : lookupProp r.props k ≠ lookupProp old.props k) :
    changeFor pol snap r = ChangeAction.Replace ∧
      ∃ ops pre suf, expandPlan zd pol g snap = Except.ok ops ∧
        ops = pre ++
          (if zd r.rtype then [ExecOp.createOp r.id, ExecOp.deleteOp r.id]
           else [ExecOp.deleteOp r.id, ExecOp.createOp r.id]) ++ suf ∧
        ∀ b, g.HasEdge r.id b →
          (∀ op ∈ pre, ExecOp.opId op ≠ b) ∧ ∃ op ∈ suf, ExecOp.opId op = b := by
  obtain ⟨o, hplan, hord, hsub, hall⟩ := acyclic_plan_ok g hwf hac
  have hlook : g.lookup r.id = some r := lookup_self g hwf.1 hr
  have htyr : typeOf g snap r.id = r.rtype := by
    unfold typeOf
    rw [hlook]
  have hact : actOf pol g snap r.id = ChangeAction.Replace := by
    unfold actOf
    rw [hlook]
    show changeFor pol snap r = ChangeAction.Replace
    exact changeFor_replace pol snap hold hk hne
  have hrmemo : r.id ∈ o := hall r.id ((mem_ids_iff g r.id).mpr ⟨r, hr, rfl⟩)
  obtain ⟨l1, l2, hsplit, hnl1⟩ := split_first_mem hrmemo
  have hpair : (r.id, actOf pol g snap r.id) = (r.id, ChangeAction.Replace) := by
    rw [hact]
  have hmk : makePlan pol g snap = Except.ok
      (o.map (fun i => (i, actOf pol g snap i)) ++
        (snap.applied.filter (fun x => !(g.hasId x.id))).map
          (fun x => (x.id, ChangeAction.Delete))) := by
    unfold makePlan
    rw [hplan]
    rfl
  have hexp : expandPlan zd pol g snap = Except.ok
      (expandAll zd (typeOf g snap)
        (o.map (fun i => (i, actOf pol g snap i)) ++
          (snap.applied.filter (fun x => !(g.hasId x.id))).map
            (fun x => (x.id, ChangeAction.Delete)))) := by
    unfold expandPlan
    rw [hmk]
    rfl
  have hentries : o.map (fun i => (i, actOf pol g snap i)) ++
      (snap.applied.filter (fun x => !(g.hasId x.id))).map
        (fun x => (x.id, ChangeAction.Delete)) =
      l1.map (fun i => (i, actOf pol g snap i)) ++
        ((r.id, ChangeAction.Replace) ::
          (l2.map (fun i => (i, actOf pol g snap i)) ++
            (snap.applied.filter (fun x => !(g.hasId x.id))).map
              (fun x => (x.id, ChangeAction.Delete)))) := by
    rw [hsplit, List.map_append, List.map_cons, hpair, List.append_assoc,
      List.cons_append]
  have hseg : expandEntry zd (typeOf g snap) (r.id, ChangeAction.Replace) =
      (if zd r.rtype then [ExecOp.createOp r.id, ExecOp.deleteOp r.id]
       else [ExecOp.deleteOp r.id, ExecOp.createOp r.id]) := by
    show (if zd (typeOf g snap r.id) then [ExecOp.createOp r.id, ExecOp.deleteOp r.id]
      else [ExecOp.deleteOp r.id, ExecOp.createOp r.id]) = _
    rw [htyr]
  have hdecomp : expandAll zd (typeOf g snap)
      (o.map (fun i => (i, actOf pol g snap i)) ++
        (snap.applied.filter (fun x => !(g.hasId x.id))).map
          (fun x => (x.id, ChangeAction.Delete))) =
      expandAll zd (typeOf g snap) (l1.map (fun i => (i, actOf pol g snap i))) ++
        (if zd r.rtype then [ExecOp.createOp r.id, ExecOp.deleteOp r.id]
         else [ExecOp.deleteOp r.id, ExecOp.createOp r.id]) ++
        expandAll zd (typeOf g snap)
          (l2.map (fun i => (i, actOf pol g snap i)) ++
            (snap.applied.filter (fun x => !(g.hasId x.id))).map
              (fun x => (x.id, ChangeAction.Delete))) := by
    rw [hentries, expandAll_append]
    rw [show expandAll zd (typeOf g snap)
        ((r.id, ChangeAction.Replace) ::
          (l2.map (fun i => (i, actOf pol g snap i)) ++
            (snap.applied.filter (fun x => !(g.hasId x.id))).map
              (fun x => (x.id, ChangeAction.Delete)))) =
        expandEntry zd (typeOf g snap) (r.id, ChangeAction.Replace) ++
          expandAll zd (typeOf g snap)
            (l2.map (fun i => (i, actOf pol g snap i)) ++
              (snap.applied.filter (fun x => !(g.hasId x.id))).map
                (fun x => (x.id, ChangeAction.Delete))) from rfl]
    rw [hseg, List.append_assoc]
  refine ⟨changeFor_replace pol snap hold hk hne,
    expandAll zd (typeOf g snap)
      (o.map (fun i => (i, actOf pol g snap i)) ++
        (snap.applied.filter (fun x => !(g.hasId x.id))).map
          (fun x => (x.id, ChangeAction.Delete))),
    expandAll zd (typeOf g snap) (l1.map (fun i => (i, actOf pol g snap i))),
    expandAll zd (typeOf g snap)
      (l2.map (fun i => (i, actOf pol g snap i)) ++
        (snap.applied.filter (fun x => !(g.hasId x.id))).map
          (fun x => (x.id, ChangeAction.Delete))),
    hexp, hdecomp, ?_⟩
  intro b hedge
  have hbo : b ∈ o := hall b (edge_target_mem_ids g hedge)
  have hlt := (hord.2 b hbo r.id hedge).2
  have hbne : b ≠ r.id := by
    intro he
    rw [he] at hlt
    exact lt_irrefl _ hlt
  rw [hsplit] at hbo hlt
  obtain ⟨hbl2, hbnl1⟩ := mem_right_of_idx_gt hnl1 hbne hlt hbo
  constructor
  · intro op hop hopb
    have hmem := opId_of_mem_expandAll zd (typeOf g snap) _ op hop
    rw [map_fst_pairs] at hmem
    rw [hopb] at hmem
    exact hbnl1 hmem
  · obtain ⟨op, hop, hopid⟩ := exists_op_expandEntry zd (typeOf g snap) b
      (actOf pol g snap b)
    refine ⟨op, ?_, hopid⟩
    exact mem_expandAll_of_mem zd (typeOf g snap) _ (b, actOf pol g snap b) op
      (List.mem_append_left _ (List.mem_map.mpr ⟨b, hbl2, rfl⟩)) hop

/-- C7 witness: the replacement theorem applied to the concrete graph in
which W depends on D and the size property of D (immutable for type db)
changed against the snapshot. -/
theorem C7_replace_expansion_ordered_witness :
    replaceGraph.WellFormed ∧ replaceGraph.Acyclic ∧
      (⟨"D", "db", [("size", "1")], []⟩ : ResourceSpec) ∈ replaceGraph.nodes ∧
      replaceSnap.lookup "D" = some ⟨"D", "db", [("size", "2")], []⟩ ∧
      "size" ∈ sizePolicy "db" ∧
      lookupProp [("size", "1")] "size" ≠ lookupProp [("size", "2")] "size" ∧
      (changeFor sizePolicy replaceSnap ⟨"D", "db", [("size", "1")], []⟩ =
          ChangeAction.Replace ∧
        ∃ ops pre suf,
          expandPlan noZeroDowntime sizePolicy replaceGraph replaceSnap =
            Except.ok ops ∧
          ops = pre ++
            (if noZeroDowntime "db" then [ExecOp.createOp "D", ExecOp.deleteOp "D"]
             else [ExecOp.deleteOp "D", ExecOp.createOp "D"]) ++ suf ∧
          ∀ b, replaceGraph.HasEdge "D" b →
            (∀ op ∈ pre, ExecOp.opId op ≠ b) ∧ ∃ op ∈ suf, ExecOp.opId op = b) :=
  ⟨by decide, replaceGraph_acyclic, by decide, by decide, by decide, by decide,
    C7_replace_expansion_ordered noZeroDowntime sizePolicy replaceGraph replaceSnap
      (by decide) replaceGraph_acyclic ⟨"D", "db", [("size", "1")], []⟩
      ⟨"D", "db", [("size", "2")], []⟩ "size" (by decide) (by decide) (by decide)
      (by decide)⟩

/-- C8: whenever planning detects a PlanError (ReferenceError, CycleError or
ValidationError), the apply command aborts before any remote mutation: no
remote create, update or delete call is issued, the StateSnapshot is returned
unchanged, and the error is surfaced. -/
theorem C8_planning_error_aborts (zd : String → Bool) (pol : String → List String)
    (g : DeploymentGraph) (snap : StateSnapshot) (e : PlanError)
    (herr : expandPlan zd pol g snap = Except.error e) :
    (applyCmd zd pol g snap).calls = [] ∧
      (applyCmd zd pol g snap).snap = snap ∧
      (applyCmd zd pol g snap).failure = some e := by
  unfold applyCmd
  rw [herr]
  exact ⟨rfl, rfl, rfl⟩

/-- C8 witness: the abort theorem applied to a concrete cyclic graph, whose
planning fails with a CycleError. -/
theorem C8_planning_error_aborts_witness :
    expandPlan noZeroDowntime emptyPolicy cycleGraphForApply StateSnapshot.empty =
      Except.error (PlanError.cycleError ["X", "Y"]) ∧
      ((applyCmd noZeroDowntime emptyPolicy cycleGraphForApply
          StateSnapshot.empty).calls = [] ∧
        (applyCmd noZeroDowntime emptyPolicy cycleGraphForApply
          StateSnapshot.empty).snap = StateSnapshot.empty ∧
        (applyCmd noZeroDowntime emptyPolicy cycleGraphForApply
          StateSnapshot.empty).failure = some (PlanError.cycleError ["X", "Y"])) :=
  ⟨rfl, C8_planning_error_aborts noZeroDowntime emptyPolicy cycleGraphForApply
    StateSnapshot.empty (PlanError.cycleError ["X", "Y"]) rfl⟩
